import Mathlib

/-!
Verification of the gate-parameterization and register-statistics layer of
QuEST (src/QuEST/QuEST_common.c).  The C file's pure arithmetic is embedded
over the exact reals (the C type REAL becomes ℝ); the calls the dispatch
functions make into the external amplitude-update kernels are reified as
values of an inductive `KernelCall`, so that "hands the kernel exactly these
parameters" becomes an equation between kernel-call values.  The state export
routine `reportState` is modelled structurally: its output is the file name
plus the list of lines it writes, and separately an I/O event trace recording
which file operations it performs on the (possibly invalid) handle.
-/

namespace QuEST

noncomputable section

/-- Embeds the C struct `Complex` (two REAL fields). -/
structure Complex where
  real : ℝ
  imag : ℝ

/-- Embeds the C struct `Vector` (three REAL fields), a rotation axis. -/
structure Vector where
  x : ℝ
  y : ℝ
  z : ℝ

/-- Embeds the C struct `ComplexMatrix2` (a 2x2 complex matrix). -/
structure ComplexMatrix2 where
  r0c0 : Complex
  r0c1 : Complex
  r1c0 : Complex
  r1c1 : Complex

/-- The two parallel amplitude arrays of one chunk (stateVec.real / stateVec.imag). -/
structure StateVec where
  real : ℕ → ℝ
  imag : ℕ → ℝ

/-- Embeds the fields of the C struct `QubitRegister` used by this file. -/
structure QubitRegister where
  numQubitsInStateVec : ℕ
  numAmpsPerChunk : ℕ
  numChunks : ℕ
  chunkId : ℕ
  stateVec : StateVec

/-- Embeds `getVectorMagnitude`: sqrt(x*x + y*y + z*z). -/
def getVectorMagnitude (vec : Vector) : ℝ :=
  Real.sqrt (vec.x * vec.x + vec.y * vec.y + vec.z * vec.z)

/-- Embeds `getUnitVector`: each component divided by the magnitude. -/
def getUnitVector (vec : Vector) : Vector :=
  let mag := getVectorMagnitude vec
  ⟨vec.x / mag, vec.y / mag, vec.z / mag⟩

/-- Embeds `getConjugateScalar`: keep the real part, negate the imaginary part. -/
def getConjugateScalar (scalar : Complex) : Complex :=
  ⟨scalar.real, -scalar.imag⟩

/-- Embeds `getConjugateMatrix`: element-wise conjugation. -/
def getConjugateMatrix (matrix : ComplexMatrix2) : ComplexMatrix2 :=
  ⟨getConjugateScalar matrix.r0c0, getConjugateScalar matrix.r0c1,
   getConjugateScalar matrix.r1c0, getConjugateScalar matrix.r1c1⟩

/-- Squared modulus of a complex value, real*real + imag*imag. -/
def Complex.normSq (w : Complex) : ℝ :=
  w.real * w.real + w.imag * w.imag

/-- Modelled from the spec: `getRealAmp(register, index)` is a read-only
accessor into the local amplitude partition (the implementation lives in the
backend, outside QuEST_common.c). -/
def statevec_getRealAmpEl (qureg : QubitRegister) (index : ℕ) : ℝ :=
  qureg.stateVec.real index

/-- Modelled from the spec: `getImagAmp(register, index)` is a read-only
accessor into the local amplitude partition (the implementation lives in the
backend, outside QuEST_common.c). -/
def statevec_getImagAmpEl (qureg : QubitRegister) (index : ℕ) : ℝ :=
  qureg.stateVec.imag index

/-- Embeds `statevec_getProbEl`: real*real + imag*imag for the amplitude at
`index`.  The C function receives the register by value and only reads the
two amplitude arrays, so it is a pure read with no mutation. -/
def statevec_getProbEl (qureg : QubitRegister) (index : ℕ) : ℝ :=
  let real := statevec_getRealAmpEl qureg index
  let imag := statevec_getImagAmpEl qureg index
  real * real + imag * imag

/-- A call into one of the three external amplitude-update kernels, reified
as data: the register it acts on, the qubit indices, and the fully-determined
parameter set handed over. -/
inductive KernelCall where
  | compactUnitary (qureg : QubitRegister) (targetQubit : ℤ) (alpha beta : Complex)
  | controlledCompactUnitary (qureg : QubitRegister) (controlQubit targetQubit : ℤ)
      (alpha beta : Complex)
  | phaseShiftByTerm (qureg : QubitRegister) (targetQubit : ℤ) (term : Complex)

/-- External entry point `statevec_compactUnitary`, reified as the call record. -/
def statevec_compactUnitary (qureg : QubitRegister) (targetQubit : ℤ)
    (alpha beta : Complex) : KernelCall :=
  KernelCall.compactUnitary qureg targetQubit alpha beta

/-- External entry point `statevec_controlledCompactUnitary`, reified as the call record. -/
def statevec_controlledCompactUnitary (qureg : QubitRegister)
    (controlQubit targetQubit : ℤ) (alpha beta : Complex) : KernelCall :=
  KernelCall.controlledCompactUnitary qureg controlQubit targetQubit alpha beta

/-- External entry point `statevec_phaseShiftByTerm`, reified as the call record. -/
def statevec_phaseShiftByTerm (qureg : QubitRegister) (targetQubit : ℤ)
    (term : Complex) : KernelCall :=
  KernelCall.phaseShiftByTerm qureg targetQubit term

/-- The term of a phase-shift kernel call, when the call is one. -/
def KernelCall.term? : KernelCall → Option Complex
  | .phaseShiftByTerm _ _ term => some term
  | _ => none

/-- Embeds `statevec_phaseShift`: term = (cos angle, sin angle). -/
def statevec_phaseShift (qureg : QubitRegister) (targetQubit : ℤ) (angle : ℝ) :
    KernelCall :=
  let term : Complex := ⟨Real.cos angle, Real.sin angle⟩
  statevec_phaseShiftByTerm qureg targetQubit term

/-- Embeds `statevec_sigmaZ`: term = (-1, 0). -/
def statevec_sigmaZ (qureg : QubitRegister) (targetQubit : ℤ) : KernelCall :=
  let term : Complex := ⟨-1, 0⟩
  statevec_phaseShiftByTerm qureg targetQubit term

/-- Embeds `statevec_sGate`: term = (0, 1). -/
def statevec_sGate (qureg : QubitRegister) (targetQubit : ℤ) : KernelCall :=
  let term : Complex := ⟨0, 1⟩
  statevec_phaseShiftByTerm qureg targetQubit term

/-- Embeds `statevec_tGate`: term = (1/sqrt 2, 1/sqrt 2). -/
def statevec_tGate (qureg : QubitRegister) (targetQubit : ℤ) : KernelCall :=
  let term : Complex := ⟨1 / Real.sqrt 2, 1 / Real.sqrt 2⟩
  statevec_phaseShiftByTerm qureg targetQubit term

/-- Embeds `statevec_sGateConj`: term = (0, -1). -/
def statevec_sGateConj (qureg : QubitRegister) (targetQubit : ℤ) : KernelCall :=
  let term : Complex := ⟨0, -1⟩
  statevec_phaseShiftByTerm qureg targetQubit term

/-- Embeds `statevec_tGateConj`: term = (1/sqrt 2, -1/sqrt 2). -/
def statevec_tGateConj (qureg : QubitRegister) (targetQubit : ℤ) : KernelCall :=
  let term : Complex := ⟨1 / Real.sqrt 2, -(1 / Real.sqrt 2)⟩
  statevec_phaseShiftByTerm qureg targetQubit term

/-- Embeds `getAlphaBetaFromRotation`: normalize the axis, then build
alpha = (cos(angle/2), -sin(angle/2)*nz) and beta = (sin(angle/2)*ny,
-sin(angle/2)*nx).  The C version writes through two out-pointers; here the
pair is returned. -/
def getAlphaBetaFromRotation (angle : ℝ) (axis : Vector) : Complex × Complex :=
  let unitAxis := getUnitVector axis
  (⟨Real.cos (angle / 2), -(Real.sin (angle / 2) * unitAxis.z)⟩,
   ⟨Real.sin (angle / 2) * unitAxis.y, -(Real.sin (angle / 2) * unitAxis.x)⟩)

/-- Embeds `statevec_rotateAroundAxis`: derive (alpha, beta), hand them to the
compact-unitary kernel. -/
def statevec_rotateAroundAxis (qureg : QubitRegister) (rotQubit : ℤ) (angle : ℝ)
    (axis : Vector) : KernelCall :=
  let ab := getAlphaBetaFromRotation angle axis
  statevec_compactUnitary qureg rotQubit ab.1 ab.2

/-- Embeds `statevec_rotateAroundAxisConj`: derive (alpha, beta), multiply both
imaginary parts by -1, hand the result to the compact-unitary kernel. -/
def statevec_rotateAroundAxisConj (qureg : QubitRegister) (rotQubit : ℤ)
    (angle : ℝ) (axis : Vector) : KernelCall :=
  let ab := getAlphaBetaFromRotation angle axis
  statevec_compactUnitary qureg rotQubit
    ⟨ab.1.real, ab.1.imag * -1⟩ ⟨ab.2.real, ab.2.imag * -1⟩

/-- Embeds `statevec_controlledRotateAroundAxis`. -/
def statevec_controlledRotateAroundAxis (qureg : QubitRegister)
    (controlQubit targetQubit : ℤ) (angle : ℝ) (axis : Vector) : KernelCall :=
  let ab := getAlphaBetaFromRotation angle axis
  statevec_controlledCompactUnitary qureg controlQubit targetQubit ab.1 ab.2

/-- Embeds `statevec_controlledRotateAroundAxisConj`. -/
def statevec_controlledRotateAroundAxisConj (qureg : QubitRegister)
    (controlQubit targetQubit : ℤ) (angle : ℝ) (axis : Vector) : KernelCall :=
  let ab := getAlphaBetaFromRotation angle axis
  statevec_controlledCompactUnitary qureg controlQubit targetQubit
    ⟨ab.1.real, ab.1.imag * -1⟩ ⟨ab.2.real, ab.2.imag * -1⟩

/-- Embeds `statevec_rotateX`: delegate with unit axis (1, 0, 0). -/
def statevec_rotateX (qureg : QubitRegister) (rotQubit : ℤ) (angle : ℝ) :
    KernelCall :=
  statevec_rotateAroundAxis qureg rotQubit angle ⟨1, 0, 0⟩

/-- Embeds `statevec_rotateY`: delegate with unit axis (0, 1, 0). -/
def statevec_rotateY (qureg : QubitRegister) (rotQubit : ℤ) (angle : ℝ) :
    KernelCall :=
  statevec_rotateAroundAxis qureg rotQubit angle ⟨0, 1, 0⟩

/-- Embeds `statevec_rotateZ`: delegate with unit axis (0, 0, 1). -/
def statevec_rotateZ (qureg : QubitRegister) (rotQubit : ℤ) (angle : ℝ) :
    KernelCall :=
  statevec_rotateAroundAxis qureg rotQubit angle ⟨0, 0, 1⟩

/-- Embeds `statevec_controlledRotateX`. -/
def statevec_controlledRotateX (qureg : QubitRegister)
    (controlQubit targetQubit : ℤ) (angle : ℝ) : KernelCall :=
  statevec_controlledRotateAroundAxis qureg controlQubit targetQubit angle ⟨1, 0, 0⟩

/-- Embeds `statevec_controlledRotateY`. -/
def statevec_controlledRotateY (qureg : QubitRegister)
    (controlQubit targetQubit : ℤ) (angle : ℝ) : KernelCall :=
  statevec_controlledRotateAroundAxis qureg controlQubit targetQubit angle ⟨0, 1, 0⟩

/-- Embeds `statevec_controlledRotateZ`. -/
def statevec_controlledRotateZ (qureg : QubitRegister)
    (controlQubit targetQubit : ℤ) (angle : ℝ) : KernelCall :=
  statevec_controlledRotateAroundAxis qureg controlQubit targetQubit angle ⟨0, 0, 1⟩

/-- One line of the exported CSV file: either a literal header line, or a
data line carrying the two values printed and the decimal precision of the
format specifier used ("%.12f" and "%.12Lf" both have precision 12). -/
inductive Line where
  | header (text : String)
  | data (re im : ℝ) (precision : ℕ)

/-- Whether a line is a data line. -/
def Line.isData : Line → Bool
  | .data _ _ _ => true
  | _ => false

/-- A written file, as its name plus the lines written to it in order. -/
structure FileOutput where
  filename : String
  lines : List Line

/-- Embeds `reportState` structurally: the file is named
state_rank_<chunkId>.csv; a header line "real, imag" is written exactly when
chunkId is 0; then one data line per local amplitude index, in ascending
index order, each value printed with precision 12. -/
def reportState (qureg : QubitRegister) : FileOutput :=
  { filename := "state_rank_" ++ toString qureg.chunkId ++ ".csv"
    lines :=
      (if qureg.chunkId = 0 then [Line.header "real, imag"] else []) ++
      (List.range qureg.numAmpsPerChunk).map
        (fun index =>
          Line.data (qureg.stateVec.real index) (qureg.stateVec.imag index) 12) }

/-- One file-system action taken by `reportState`, tagged with whether the
handle it uses is a valid (successfully opened) one. -/
inductive FileEvent where
  | openFile (name : String) (ok : Bool)
  | write (handleValid : Bool) (line : Line)
  | close (handleValid : Bool)

/-- Execution trace of `reportState` given whether `fopen` succeeds.  The C
source never tests the result of `fopen`: the header write, every data write
and the final `fclose` all use the returned handle unconditionally, so every
event after the open carries the open's success flag unchanged. -/
def reportStateTrace (qureg : QubitRegister) (fopenOk : Bool) : List FileEvent :=
  [FileEvent.openFile ("state_rank_" ++ toString qureg.chunkId ++ ".csv") fopenOk] ++
  (if qureg.chunkId = 0 then [FileEvent.write fopenOk (Line.header "real, imag")] else []) ++
  (List.range qureg.numAmpsPerChunk).map
    (fun index =>
      FileEvent.write fopenOk
        (Line.data (qureg.stateVec.real index) (qureg.stateVec.imag index) 12)) ++
  [FileEvent.close fopenOk]

/-- The register of the spec's export scenario: one chunk (rank 0) holding the
two amplitudes (1, 0) and (0, 0). -/
def exportReg : QubitRegister :=
  { numQubitsInStateVec := 1
    numAmpsPerChunk := 2
    numChunks := 1
    chunkId := 0
    stateVec := ⟨fun index => if index = 0 then 1 else 0, fun _ => 0⟩ }

/-- A register whose amplitude at every index is (0.6, 0.8). -/
def probeReg : QubitRegister :=
  { numQubitsInStateVec := 1
    numAmpsPerChunk := 2
    numChunks := 1
    chunkId := 0
    stateVec := ⟨fun _ => 0.6, fun _ => 0.8⟩ }

theorem sumSq_nonneg (v : Vector) : 0 ≤ v.x * v.x + v.y * v.y + v.z * v.z := by
  have hx := mul_self_nonneg v.x
  have hy := mul_self_nonneg v.y
  have hz := mul_self_nonneg v.z
  linarith

theorem magnitude_pos_of_ne_zero (v : Vector) (h : v ≠ ⟨0, 0, 0⟩) :
    0 < getVectorMagnitude v := by
  rw [getVectorMagnitude, Real.sqrt_pos]
  rcases lt_or_eq_of_le (sumSq_nonneg v) with hlt | heq
  · exact hlt
  · exfalso
    apply h
    have hx : v.x = 0 := mul_self_eq_zero.mp (le_antisymm
      (by nlinarith [mul_self_nonneg v.y, mul_self_nonneg v.z]) (mul_self_nonneg v.x))
    have hy : v.y = 0 := mul_self_eq_zero.mp (le_antisymm
      (by nlinarith [mul_self_nonneg v.x, mul_self_nonneg v.z]) (mul_self_nonneg v.y))
    have hz : v.z = 0 := mul_self_eq_zero.mp (le_antisymm
      (by nlinarith [mul_self_nonneg v.x, mul_self_nonneg v.y]) (mul_self_nonneg v.z))
    rw [show v = (⟨v.x, v.y, v.z⟩ : Vector) from rfl, hx, hy, hz]

theorem getUnitVector_magnitude (v : Vector) (h : v ≠ ⟨0, 0, 0⟩) :
    getVectorMagnitude (getUnitVector v) = 1 := by
  have hpos := magnitude_pos_of_ne_zero v h
  have hne : getVectorMagnitude v ≠ 0 := ne_of_gt hpos
  have hsum : getVectorMagnitude v * getVectorMagnitude v
      = v.x * v.x + v.y * v.y + v.z * v.z :=
    Real.mul_self_sqrt (sumSq_nonneg v)
  have hinner : (getUnitVector v).x * (getUnitVector v).x
      + (getUnitVector v).y * (getUnitVector v).y
      + (getUnitVector v).z * (getUnitVector v).z = 1 := by
    simp only [getUnitVector]
    field_simp
    linarith [hsum]
  rw [getVectorMagnitude, hinner, Real.sqrt_one]

theorem filter_isData_map (f g : ℕ → ℝ) (n : ℕ) :
    ((List.range n).map (fun index => Line.data (f index) (g index) 12)).filter
        Line.isData
      = (List.range n).map (fun index => Line.data (f index) (g index) 12) := by
  apply List.filter_eq_self.mpr
  intro a ha
  simp only [List.mem_map] at ha
  obtain ⟨i, _, rfl⟩ := ha
  rfl

theorem invSqrtTwo_mul_self : 1 / Real.sqrt 2 * (1 / Real.sqrt 2) = 1 / 2 := by
  rw [div_mul_div_comm, one_mul, Real.mul_self_sqrt (by norm_num : (0:ℝ) ≤ 2)]

/-- C1: for every finite angle θ and every non-zero axis vector,
getAlphaBetaFromRotation first normalizes the axis to a genuine unit vector
(nx, ny, nz) and then returns alpha = (cos(θ/2), -sin(θ/2)*nz) and
beta = (sin(θ/2)*ny, -sin(θ/2)*nx). -/
theorem getAlphaBetaFromRotation_spec (angle : ℝ) (axis : Vector)
    (h : axis ≠ ⟨0, 0, 0⟩) :
    getVectorMagnitude (getUnitVector axis) = 1 ∧
    (getAlphaBetaFromRotation angle axis).1.real = Real.cos (angle / 2) ∧
    (getAlphaBetaFromRotation angle axis).1.imag
      = -(Real.sin (angle / 2) * (getUnitVector axis).z) ∧
    (getAlphaBetaFromRotation angle axis).2.real
      = Real.sin (angle / 2) * (getUnitVector axis).y ∧
    (getAlphaBetaFromRotation angle axis).2.imag
      = -(Real.sin (angle / 2) * (getUnitVector axis).x) :=
  ⟨getUnitVector_magnitude axis h, rfl, rfl, rfl, rfl⟩

theorem getAlphaBetaFromRotation_spec_witness :
    (⟨0, 0, 1⟩ : Vector) ≠ ⟨0, 0, 0⟩ ∧
    (getVectorMagnitude (getUnitVector ⟨0, 0, 1⟩) = 1 ∧
     (getAlphaBetaFromRotation 0 ⟨0, 0, 1⟩).1.real = Real.cos (0 / 2) ∧
     (getAlphaBetaFromRotation 0 ⟨0, 0, 1⟩).1.imag
       = -(Real.sin (0 / 2) * (getUnitVector ⟨0, 0, 1⟩).z) ∧
     (getAlphaBetaFromRotation 0 ⟨0, 0, 1⟩).2.real
       = Real.sin (0 / 2) * (getUnitVector ⟨0, 0, 1⟩).y ∧
     (getAlphaBetaFromRotation 0 ⟨0, 0, 1⟩).2.imag
       = -(Real.sin (0 / 2) * (getUnitVector ⟨0, 0, 1⟩).x)) :=
  ⟨by simp, getAlphaBetaFromRotation_spec 0 ⟨0, 0, 1⟩ (by simp)⟩

/-- C2: for every angle and axis, the Conj variants perform the forward
derivation of (alpha, beta), then negate both imaginary parts (conjugation,
not angle negation), and hand the result to the same kernel entry points as
their non-adjoint counterparts (compactUnitary / controlledCompactUnitary). -/
theorem rotateAroundAxisConj_spec (qureg : QubitRegister)
    (controlQubit rotQubit : ℤ) (angle : ℝ) (axis : Vector) :
    statevec_rotateAroundAxisConj qureg rotQubit angle axis
      = statevec_compactUnitary qureg rotQubit
          (getConjugateScalar (getAlphaBetaFromRotation angle axis).1)
          (getConjugateScalar (getAlphaBetaFromRotation angle axis).2) ∧
    statevec_controlledRotateAroundAxisConj qureg controlQubit rotQubit angle axis
      = statevec_controlledCompactUnitary qureg controlQubit rotQubit
          (getConjugateScalar (getAlphaBetaFromRotation angle axis).1)
          (getConjugateScalar (getAlphaBetaFromRotation angle axis).2) := by
  constructor
  · simp [statevec_rotateAroundAxisConj, statevec_compactUnitary,
      getConjugateScalar, mul_neg_one]
  · simp [statevec_controlledRotateAroundAxisConj,
      statevec_controlledCompactUnitary, getConjugateScalar, mul_neg_one]

/-- C3: for every angle θ and every unit axis n, the pair (alpha, beta)
produced by getAlphaBetaFromRotation satisfies normSq alpha + normSq beta = 1
exactly, over exact real arithmetic. -/
theorem alphaBeta_sum_normSq (angle : ℝ) (n : Vector)
    (h : getVectorMagnitude n = 1) :
    Complex.normSq (getAlphaBetaFromRotation angle n).1
      + Complex.normSq (getAlphaBetaFromRotation angle n).2 = 1 := by
  have hsum : n.x * n.x + n.y * n.y + n.z * n.z = 1 :=
    Real.sqrt_eq_one.mp h
  have hunit : getUnitVector n = n := by
    simp [getUnitVector, h]
  simp only [getAlphaBetaFromRotation, hunit, Complex.normSq]
  linear_combination Real.sin_sq_add_cos_sq (angle / 2)
    + Real.sin (angle / 2) ^ 2 * hsum

theorem alphaBeta_sum_normSq_witness :
    getVectorMagnitude ⟨0, 0, 1⟩ = 1 ∧
    Complex.normSq (getAlphaBetaFromRotation 0 ⟨0, 0, 1⟩).1
      + Complex.normSq (getAlphaBetaFromRotation 0 ⟨0, 0, 1⟩).2 = 1 :=
  ⟨by norm_num [getVectorMagnitude, Real.sqrt_one],
   alphaBeta_sum_normSq 0 ⟨0, 0, 1⟩
     (by norm_num [getVectorMagnitude, Real.sqrt_one])⟩

/-- C4: rotateX/Y/Z produce exactly the same kernel call as rotateAroundAxis
with axis (1,0,0)/(0,1,0)/(0,0,1), and likewise the controlled variants. -/
theorem rotateXYZ_eq_rotateAroundAxis (qureg : QubitRegister)
    (controlQubit rotQubit : ℤ) (angle : ℝ) :
    statevec_rotateX qureg rotQubit angle
      = statevec_rotateAroundAxis qureg rotQubit angle ⟨1, 0, 0⟩ ∧
    statevec_rotateY qureg rotQubit angle
      = statevec_rotateAroundAxis qureg rotQubit angle ⟨0, 1, 0⟩ ∧
    statevec_rotateZ qureg rotQubit angle
      = statevec_rotateAroundAxis qureg rotQubit angle ⟨0, 0, 1⟩ ∧
    statevec_controlledRotateX qureg controlQubit rotQubit angle
      = statevec_controlledRotateAroundAxis qureg controlQubit rotQubit angle ⟨1, 0, 0⟩ ∧
    statevec_controlledRotateY qureg controlQubit rotQubit angle
      = statevec_controlledRotateAroundAxis qureg controlQubit rotQubit angle ⟨0, 1, 0⟩ ∧
    statevec_controlledRotateZ qureg controlQubit rotQubit angle
      = statevec_controlledRotateAroundAxis qureg controlQubit rotQubit angle ⟨0, 0, 1⟩ :=
  ⟨rfl, rfl, rfl, rfl, rfl, rfl⟩

/-- C5: each phase-family gate hands the phase-shift kernel exactly the fixed
term of the table: phaseShift(angle) = (cos angle, sin angle), Z = (-1, 0),
S = (0, 1), T = (1/sqrt 2, 1/sqrt 2), S-adjoint = (0, -1),
T-adjoint = (1/sqrt 2, -1/sqrt 2). -/
theorem phaseGate_terms (qureg : QubitRegister) (targetQubit : ℤ) (angle : ℝ) :
    statevec_phaseShift qureg targetQubit angle
      = statevec_phaseShiftByTerm qureg targetQubit ⟨Real.cos angle, Real.sin angle⟩ ∧
    statevec_sigmaZ qureg targetQubit
      = statevec_phaseShiftByTerm qureg targetQubit ⟨-1, 0⟩ ∧
    statevec_sGate qureg targetQubit
      = statevec_phaseShiftByTerm qureg targetQubit ⟨0, 1⟩ ∧
    statevec_tGate qureg targetQubit
      = statevec_phaseShiftByTerm qureg targetQubit ⟨1 / Real.sqrt 2, 1 / Real.sqrt 2⟩ ∧
    statevec_sGateConj qureg targetQubit
      = statevec_phaseShiftByTerm qureg targetQubit ⟨0, -1⟩ ∧
    statevec_tGateConj qureg targetQubit
      = statevec_phaseShiftByTerm qureg targetQubit ⟨1 / Real.sqrt 2, -(1 / Real.sqrt 2)⟩ :=
  ⟨rfl, rfl, rfl, rfl, rfl, rfl⟩

/-- C6: every term handed to the phase-shift kernel has squared modulus 1,
exactly over exact real arithmetic: for each fixed table entry and for
phaseShift at every angle. -/
theorem phaseTerms_unit_modulus (qureg : QubitRegister) (targetQubit : ℤ)
    (angle : ℝ) :
    (statevec_phaseShift qureg targetQubit angle).term?.map Complex.normSq
      = some 1 ∧
    (statevec_sigmaZ qureg targetQubit).term?.map Complex.normSq = some 1 ∧
    (statevec_sGate qureg targetQubit).term?.map Complex.normSq = some 1 ∧
    (statevec_tGate qureg targetQubit).term?.map Complex.normSq = some 1 ∧
    (statevec_sGateConj qureg targetQubit).term?.map Complex.normSq = some 1 ∧
    (statevec_tGateConj qureg targetQubit).term?.map Complex.normSq = some 1 := by
  refine ⟨?_, ?_, ?_, ?_, ?_, ?_⟩
  · simp only [statevec_phaseShift, statevec_phaseShiftByTerm, KernelCall.term?,
      Option.map_some', Complex.normSq, Option.some.injEq]
    linear_combination Real.sin_sq_add_cos_sq angle
  · norm_num [statevec_sigmaZ, statevec_phaseShiftByTerm, KernelCall.term?,
      Complex.normSq]
  · norm_num [statevec_sGate, statevec_phaseShiftByTerm, KernelCall.term?,
      Complex.normSq]
  · simp only [statevec_tGate, statevec_phaseShiftByTerm, KernelCall.term?,
      Option.map_some', Complex.normSq, Option.some.injEq, invSqrtTwo_mul_self]
    norm_num
  · norm_num [statevec_sGateConj, statevec_phaseShiftByTerm, KernelCall.term?,
      Complex.normSq]
  · simp only [statevec_tGateConj, statevec_phaseShiftByTerm, KernelCall.term?,
      Option.map_some', Complex.normSq, Option.some.injEq, neg_mul_neg,
      invSqrtTwo_mul_self]
    norm_num

/-- C7: for every register and local index, getProbEl returns exactly
real*real + imag*imag for the amplitude there, is non-negative, and on a
register whose amplitude is (0.6, 0.8) it returns exactly 1.  The embedded
function is pure: it only reads the two amplitude arrays. -/
theorem getProbEl_spec (qureg : QubitRegister) (index : ℕ) :
    statevec_getProbEl qureg index
      = statevec_getRealAmpEl qureg index * statevec_getRealAmpEl qureg index
        + statevec_getImagAmpEl qureg index * statevec_getImagAmpEl qureg index ∧
    0 ≤ statevec_getProbEl qureg index ∧
    statevec_getProbEl probeReg 0 = 1 := by
  refine ⟨rfl, ?_, ?_⟩
  · have hr := mul_self_nonneg (statevec_getRealAmpEl qureg index)
    have hi := mul_self_nonneg (statevec_getImagAmpEl qureg index)
    simp only [statevec_getProbEl]
    linarith
  · norm_num [statevec_getProbEl, statevec_getRealAmpEl, statevec_getImagAmpEl,
      probeReg]

/-- C8: the export writes the file state_rank_<chunkId>.csv; the header line
"real, imag" appears iff chunkId = 0 (and then first); the data lines are
exactly one per local amplitude index in ascending index order, each value
printed with precision 12. -/
theorem reportState_spec (qureg : QubitRegister) :
    (reportState qureg).filename
      = "state_rank_" ++ toString qureg.chunkId ++ ".csv" ∧
    (Line.header "real, imag" ∈ (reportState qureg).lines ↔ qureg.chunkId = 0) ∧
    (qureg.chunkId = 0 →
      (reportState qureg).lines.head? = some (Line.header "real, imag")) ∧
    (reportState qureg).lines.filter Line.isData
      = (List.range qureg.numAmpsPerChunk).map
          (fun index =>
            Line.data (qureg.stateVec.real index) (qureg.stateVec.imag index) 12) ∧
    ((reportState qureg).lines.filter Line.isData).length
      = qureg.numAmpsPerChunk := by
  refine ⟨rfl, ?_, ?_, ?_, ?_⟩
  · by_cases hc : qureg.chunkId = 0 <;>
      simp [reportState, hc, List.mem_map, Line.isData]
  · intro hc
    simp [reportState, hc]
  · by_cases hc : qureg.chunkId = 0 <;>
      simp [reportState, hc, List.filter_append, filter_isData_map, Line.isData]
  · by_cases hc : qureg.chunkId = 0 <;>
      simp [reportState, hc, List.filter_append, filter_isData_map, Line.isData]

theorem reportState_spec_witness :
    ((reportState exportReg).lines.filter Line.isData).length = 2 := by
  have h := (reportState_spec exportReg).2.2.2.2
  simpa [exportReg] using h

/-- C9: evidence for the failing input of the safety claim.  When fopen fails
(the handle is invalid), the source performs its header write, all data
writes and the final fclose on that invalid handle anyway, because it never
tests the fopen result. -/
theorem reportState_writes_on_invalid_handle :
    FileEvent.write false (Line.header "real, imag")
        ∈ reportStateTrace exportReg false ∧
    FileEvent.close false ∈ reportStateTrace exportReg false := by
  constructor <;> simp [reportStateTrace, exportReg]

/-- C10: for every angle, non-zero axis v and scalar c > 0,
getAlphaBetaFromRotation applied to the scaled axis c*v returns exactly the
same pair as on v: only the axis direction matters. -/
theorem getAlphaBetaFromRotation_scaleInvariant (angle : ℝ) (v : Vector)
    (c : ℝ) (hv : v ≠ ⟨0, 0, 0⟩) (hc : 0 < c) :
    getAlphaBetaFromRotation angle ⟨c * v.x, c * v.y, c * v.z⟩
      = getAlphaBetaFromRotation angle v := by
  have hm := magnitude_pos_of_ne_zero v hv
  have hmagScale : getVectorMagnitude ⟨c * v.x, c * v.y, c * v.z⟩
      = c * getVectorMagnitude v := by
    rw [getVectorMagnitude, getVectorMagnitude]
    rw [show c * v.x * (c * v.x) + c * v.y * (c * v.y) + c * v.z * (c * v.z)
        = c * c * (v.x * v.x + v.y * v.y + v.z * v.z) by ring]
    rw [Real.sqrt_mul (mul_self_nonneg c), Real.sqrt_mul_self hc.le]
  have hcne : c ≠ 0 := ne_of_gt hc
  have hunit : getUnitVector ⟨c * v.x, c * v.y, c * v.z⟩ = getUnitVector v := by
    simp only [getUnitVector, hmagScale]
    rw [mul_div_mul_left _ _ hcne, mul_div_mul_left _ _ hcne,
      mul_div_mul_left _ _ hcne]
  simp only [getAlphaBetaFromRotation, hunit]

theorem getAlphaBetaFromRotation_scaleInvariant_witness :
    (⟨0, 0, 1⟩ : Vector) ≠ ⟨0, 0, 0⟩ ∧ (0:ℝ) < 2 ∧
    getAlphaBetaFromRotation 0 ⟨2 * Vector.x ⟨0, 0, 1⟩, 2 * Vector.y ⟨0, 0, 1⟩,
        2 * Vector.z ⟨0, 0, 1⟩⟩
      = getAlphaBetaFromRotation 0 ⟨0, 0, 1⟩ :=
  ⟨by simp, by norm_num,
   getAlphaBetaFromRotation_scaleInvariant 0 ⟨0, 0, 1⟩ 2 (by simp) (by norm_num)⟩

end

end QuEST
